import Mathlib

/-!
Shallow embedding of the v1optoSSN core (src/models/ssn_model.py,
src/models/visual_stimulus.py, src/models/optogenetic_stimulus.py).

Modelling conventions:
* A W×H grid is a function `ZMod N → ZMod N → α` on a square `N × N` grid
  (the spec and all claims use square grids); the `ZMod` index carries the
  periodic wrap-around used by `convolve2d(..., boundary='wrap')`.
* Python floats are modelled by exact arithmetic: `ℝ` for the analytic
  computations (exp, cos, division), `ℚ` for the orientation-map values
  (every float is a rational, and the optogenetic mask compares the map
  against `column_tuning` with `==`, which needs decidable equality) and
  for the trial-duration / bin-size configuration, so that
  `time_bins = floor(duration / bin_size)` is an exact, executable value.
* `int(x)` of Python on a non-negative quotient is `Int.floor`.
* `scipy.signal.convolve2d(activity, kernel, mode='same', boundary='wrap')`
  with equal `N × N` shapes is the circular convolution
  `out[i,j] = Σ_{p,q} kernel[p,q] · activity[(i+o-p) mod N, (j+o-q) mod N]`
  with `o = (N-1)/2` (the centred slice of the full periodic convolution).
-/

namespace V1OptoSSN

/-- A square `N × N` grid of values with wrap-around indexing. -/
abbrev Grid (N : ℕ) (α : Type) := ZMod N → ZMod N → α

/-- `np.deg2rad`. -/
noncomputable def deg2rad (x : ℝ) : ℝ := x * Real.pi / 180

/-- The all-zero activity grid (`np.zeros((size, size))`). -/
def zero_grid (N : ℕ) : Grid N ℝ := fun _ _ => 0

/-- The centre index `size // 2` used by `create_ssn_connectivity`. -/
def center (N : ℕ) : ZMod N := ((N / 2 : ℕ) : ZMod N)

/-- Squared Euclidean distance of cell `(i, j)` from the grid centre:
`distances**2` of `create_ssn_connectivity`, where `np.meshgrid` puts the
column index `j` on the x axis and the row index `i` on the y axis. -/
noncomputable def dist_sq (N : ℕ) (i j : ZMod N) : ℝ :=
  ((j.val : ℝ) - (N / 2 : ℕ)) ^ 2 + ((i.val : ℝ) - (N / 2 : ℕ)) ^ 2

/-- `orientation_similarity = np.cos(np.deg2rad(|map - map[center]|))**2`. -/
noncomputable def orientation_similarity {N : ℕ} (map : Grid N ℚ) (i j : ZMod N) : ℝ :=
  Real.cos (deg2rad |((map i j : ℚ) : ℝ) - ((map (center N) (center N) : ℚ) : ℝ)|) ^ 2

/-- An unnormalized connectivity kernel of `create_ssn_connectivity`:
`np.exp(-distances**2 / (2 * sigma**2)) * orientation_similarity`. -/
noncomputable def unnormalized_kernel {N : ℕ} (map : Grid N ℚ) (sigma : ℝ) : Grid N ℝ :=
  fun i j => Real.exp (-(dist_sq N i j) / (2 * sigma ^ 2)) * orientation_similarity map i j

/-- `np.sum` over a grid. -/
noncomputable def kernel_sum {N : ℕ} [NeZero N] (k : Grid N ℝ) : ℝ :=
  ∑ i : ZMod N, ∑ j : ZMod N, k i j

/-- `SSNModel.create_ssn_connectivity`: each kernel is divided by its own
total sum, unconditionally (there is no zero-sum check in the source). -/
noncomputable def create_ssn_connectivity {N : ℕ} [NeZero N] (map : Grid N ℚ)
    (sigma_e sigma_i : ℝ) : Grid N ℝ × Grid N ℝ :=
  (fun i j => unnormalized_kernel map sigma_e i j /
      kernel_sum (unnormalized_kernel map sigma_e),
   fun i j => unnormalized_kernel map sigma_i i j /
      kernel_sum (unnormalized_kernel map sigma_i))

/-- `SSNModel.supralinear_transfer_function`: `np.maximum(0, x)**n`, with the
real-exponent power (`n` is a caller-supplied exponent, integer or not). -/
noncomputable def supralinear_transfer_function (n x : ℝ) : ℝ := (max 0 x) ^ n

/-- `SSNModel.apply_opsin_map`: elementwise product. -/
noncomputable def apply_opsin_map {N : ℕ} (opto opsin : Grid N ℝ) : Grid N ℝ :=
  fun i j => opto i j * opsin i j

/-- The centring offset `(N-1) / 2` of scipy's `mode='same'` slice. -/
def conv_offset (N : ℕ) : ZMod N := (((N - 1) / 2 : ℕ) : ZMod N)

/-- `SSNModel.convolve_with_kernel`:
`convolve2d(activity, kernel, mode='same', boundary='wrap')` on equal
`N × N` shapes, i.e. circular convolution with the `mode='same'` offset. -/
noncomputable def convolve_with_kernel {N : ℕ} [NeZero N] (activity kernel : Grid N ℝ) :
    Grid N ℝ :=
  fun i j => ∑ p : ZMod N, ∑ q : ZMod N,
    kernel p q * activity (i + conv_offset N - p) (j + conv_offset N - q)

/-- One body of the `for t in range(time_bins)` loop of `SSNModel.run_trial`:
`total_input = visual + opto + recurrent_exc - recurrent_inh`, then the
supralinear transfer function. -/
noncomputable def ssn_step {N : ℕ} [NeZero N] (kE kI vis opto : Grid N ℝ) (n : ℝ)
    (act : Grid N ℝ) : Grid N ℝ :=
  fun i j => supralinear_transfer_function n
    (vis i j + opto i j + convolve_with_kernel act kE i j - convolve_with_kernel act kI i j)

/-- The stepping loop of `SSNModel.run_trial`: starting from `act`, apply
`ssn_step` `T` times, recording each new state as one time-bin slice of the
trace (`activity[:, :, t] = current_activity`). -/
noncomputable def run_steps {N : ℕ} [NeZero N] (kE kI vis opto : Grid N ℝ) (n : ℝ) :
    Grid N ℝ → ℕ → List (Grid N ℝ)
  | _, 0 => []
  | act, T + 1 =>
    ssn_step kE kI vis opto n act :: run_steps kE kI vis opto n (ssn_step kE kI vis opto n act) T

/-- `time_bins = int(trial_duration / bin_size)` on exact rationals
(`int` of a non-negative float quotient is the floor). -/
def time_bins (trial_duration bin_size : ℚ) : ℕ := ⌊trial_duration / bin_size⌋.toNat

/-- `VisualStimulus.__init__` fields. -/
structure VisualStimulus where
  orientation : ℝ
  spatial_frequency : ℝ
  contrast : ℝ
  size : ℝ
  onset : ℝ

/-- One coordinate of `np.linspace(-1, 1, N)` (for `N = 1` numpy yields
`[-1.0]`, matched here by Lean's `x / 0 = 0` convention). -/
noncomputable def linspace_coord (N : ℕ) (j : ZMod N) : ℝ :=
  -1 + 2 * (j.val : ℝ) / ((N : ℝ) - 1)

/-- `VisualStimulus.generate_input`: a Gabor patch, Gaussian envelope on the
unrotated coordinates times a carrier cosine along the rotated x axis,
scaled by the contrast. -/
noncomputable def VisualStimulus.generate_input {N : ℕ} (vs : VisualStimulus) : Grid N ℝ :=
  fun i j =>
    vs.contrast *
      (Real.exp (-((linspace_coord N j) ^ 2 + (linspace_coord N i) ^ 2) /
          (2 * vs.size ^ 2)) *
        Real.cos (2 * Real.pi * vs.spatial_frequency *
          (linspace_coord N j * Real.cos (deg2rad vs.orientation) +
            linspace_coord N i * Real.sin (deg2rad vs.orientation))))

/-- `OptogeneticStimulus.__init__` fields (`num_columns` and `column_area`
are stored but unused by `generate_input`). -/
structure OptogeneticStimulus where
  column_tuning : ℚ
  num_columns : ℕ
  column_area : ℚ
  power : ℚ

/-- `mask = (orientation_map == self.column_tuning)`, as a 0/1 grid
(`mask.astype(float)`). -/
def opto_mask {N : ℕ} (map : Grid N ℚ) (tuning : ℚ) : Grid N ℚ :=
  fun i j => if map i j = tuning then 1 else 0

/-- `np.max` over a grid. -/
def grid_max {N : ℕ} [NeZero N] (g : Grid N ℚ) : ℚ :=
  Finset.univ.sup' ⟨(0, 0), Finset.mem_univ (0, 0)⟩ (fun p : ZMod N × ZMod N => g p.1 p.2)

/-- `OptogeneticStimulus.generate_input`: the binary mask scaled by the
power, divided by its maximum when that maximum is positive. -/
def OptogeneticStimulus.generate_input {N : ℕ} [NeZero N] (os : OptogeneticStimulus)
    (map : Grid N ℚ) : Grid N ℚ :=
  if 0 < grid_max (fun i j => opto_mask map os.column_tuning i j * os.power) then
    fun i j => opto_mask map os.column_tuning i j * os.power /
      grid_max (fun i j => opto_mask map os.column_tuning i j * os.power)
  else
    fun i j => opto_mask map os.column_tuning i j * os.power

/-- `opto_input = self.apply_opsin_map(opto_input, opsin_map)` when an opsin
map is supplied (`if opsin_map is not None`). -/
noncomputable def apply_opsin_opt {N : ℕ} (opto : Grid N ℝ) :
    Option (Grid N ℝ) → Grid N ℝ
  | some m => apply_opsin_map opto m
  | none => opto

/-- `SSNModel.run_trial` below input generation: the trial as a function of
the precomputed kernels, the generated stimulus frames, the optional opsin
map and the time configuration. -/
noncomputable def run_trial_from_inputs {N : ℕ} [NeZero N]
    (kE kI vis opto : Grid N ℝ) (opsin : Option (Grid N ℝ)) (n : ℝ) (T : ℕ) :
    List (Grid N ℝ) :=
  run_steps kE kI vis (apply_opsin_opt opto opsin) n (zero_grid N) T

/-- `SSNModel.run_trial`: kernels from `create_ssn_connectivity` (built once
in `__init__`), stimulus frames generated once per trial, opsin scaling,
then the stepping loop from the all-zero activity state. -/
noncomputable def run_trial {N : ℕ} [NeZero N] (map : Grid N ℚ)
    (sigma_e sigma_i n : ℝ) (visual_stim : VisualStimulus)
    (opto_stim : OptogeneticStimulus) (trial_duration bin_size : ℚ)
    (opsin_map : Option (Grid N ℝ)) : List (Grid N ℝ) :=
  run_trial_from_inputs
    (create_ssn_connectivity map sigma_e sigma_i).1
    (create_ssn_connectivity map sigma_e sigma_i).2
    (VisualStimulus.generate_input visual_stim)
    (fun i j => ((OptogeneticStimulus.generate_input opto_stim map i j : ℚ) : ℝ))
    opsin_map n (time_bins trial_duration bin_size)

/-! ### Helper lemmas -/

lemma run_steps_length {N : ℕ} [NeZero N] (kE kI vis opto : Grid N ℝ) (n : ℝ)
    (act : Grid N ℝ) (T : ℕ) : (run_steps kE kI vis opto n act T).length = T := by
  induction T generalizing act with
  | zero => rfl
  | succ T ih => simp [run_steps, ih]

lemma convolve_zero {N : ℕ} [NeZero N] (kernel : Grid N ℝ) :
    convolve_with_kernel (zero_grid N) kernel = zero_grid N := by
  funext i j
  simp [convolve_with_kernel, zero_grid]

lemma ssn_step_zero {N : ℕ} [NeZero N] (kE kI : Grid N ℝ) (n : ℝ) (hn : n ≠ 0) :
    ssn_step kE kI (zero_grid N) (zero_grid N) n (zero_grid N) = zero_grid N := by
  funext i j
  simp [ssn_step, convolve_zero, zero_grid, supralinear_transfer_function,
    Real.zero_rpow hn]

lemma run_steps_zero {N : ℕ} [NeZero N] (kE kI : Grid N ℝ) (n : ℝ) (hn : n ≠ 0)
    (T : ℕ) :
    run_steps kE kI (zero_grid N) (zero_grid N) n (zero_grid N) T =
      List.replicate T (zero_grid N) := by
  induction T with
  | zero => rfl
  | succ T ih => simp [run_steps, ssn_step_zero kE kI n hn, ih, List.replicate_succ]

lemma generate_input_contrast_zero {N : ℕ} (ori sf sz ons : ℝ) :
    VisualStimulus.generate_input (N := N) ⟨ori, sf, 0, sz, ons⟩ = zero_grid N := by
  funext i j
  simp [VisualStimulus.generate_input, zero_grid]

lemma generate_input_power_zero {N : ℕ} [NeZero N] (tun : ℚ) (nc : ℕ) (ca : ℚ)
    (map : Grid N ℚ) :
    OptogeneticStimulus.generate_input ⟨tun, nc, ca, 0⟩ map = fun _ _ => 0 := by
  have hz : (fun i j => opto_mask map tun i j * (0 : ℚ)) = fun _ _ => (0 : ℚ) := by
    funext i j; exact mul_zero _
  simp only [OptogeneticStimulus.generate_input, hz]
  rw [if_neg]
  simp [grid_max, Finset.sup'_const]

lemma run_trial_zero_drive {N : ℕ} [NeZero N] (map : Grid N ℚ)
    (sigma_e sigma_i n : ℝ) (hn : n ≠ 0) (ori sf sz ons : ℝ) (tun : ℚ) (nc : ℕ)
    (ca : ℚ) (d b : ℚ) :
    run_trial map sigma_e sigma_i n ⟨ori, sf, 0, sz, ons⟩ ⟨tun, nc, ca, 0⟩ d b none =
      List.replicate (time_bins d b) (zero_grid N) := by
  have hv := generate_input_contrast_zero (N := N) ori sf sz ons
  have ho := generate_input_power_zero (N := N) tun nc ca map
  rw [run_trial, run_trial_from_inputs, hv, ho]
  have : (fun i j => (((fun _ _ => (0 : ℚ)) i j : ℚ) : ℝ)) = zero_grid N := by
    funext i j; simp [zero_grid]
  rw [this]
  exact run_steps_zero _ _ n hn _

lemma center_val {N : ℕ} [NeZero N] : (center N).val = N / 2 := by
  have h : N / 2 < N := Nat.div_lt_self (Nat.pos_of_ne_zero (NeZero.ne N)) one_lt_two
  simpa [center] using ZMod.val_cast_of_lt h

lemma dist_sq_center {N : ℕ} [NeZero N] : dist_sq N (center N) (center N) = 0 := by
  simp [dist_sq, center_val]

lemma dist_sq_nonneg {N : ℕ} (i j : ZMod N) : 0 ≤ dist_sq N i j :=
  add_nonneg (sq_nonneg _) (sq_nonneg _)

lemma orientation_similarity_center {N : ℕ} (map : Grid N ℚ) :
    orientation_similarity map (center N) (center N) = 1 := by
  simp [orientation_similarity, deg2rad]

lemma unnormalized_kernel_center {N : ℕ} [NeZero N] (map : Grid N ℚ) (sigma : ℝ) :
    unnormalized_kernel map sigma (center N) (center N) = 1 := by
  simp [unnormalized_kernel, dist_sq_center, orientation_similarity_center]

lemma unnormalized_kernel_nonneg {N : ℕ} (map : Grid N ℚ) (sigma : ℝ) (i j : ZMod N) :
    0 ≤ unnormalized_kernel map sigma i j :=
  mul_nonneg (Real.exp_pos _).le (sq_nonneg _)

lemma unnormalized_kernel_le_one {N : ℕ} (map : Grid N ℚ) (sigma : ℝ) (i j : ZMod N) :
    unnormalized_kernel map sigma i j ≤ 1 := by
  have hexp : Real.exp (-(dist_sq N i j) / (2 * sigma ^ 2)) ≤ 1 := by
    rw [Real.exp_le_one_iff]
    exact div_nonpos_of_nonpos_of_nonneg (neg_nonpos.mpr (dist_sq_nonneg i j))
      (by positivity)
  have hcos : orientation_similarity map i j ≤ 1 := Real.cos_sq_le_one _
  exact mul_le_one₀ hexp (sq_nonneg _) hcos

lemma one_le_kernel_sum {N : ℕ} [NeZero N] (map : Grid N ℚ) (sigma : ℝ) :
    1 ≤ kernel_sum (unnormalized_kernel map sigma) := by
  calc (1 : ℝ) = unnormalized_kernel map sigma (center N) (center N) :=
        (unnormalized_kernel_center map sigma).symm
    _ ≤ ∑ j : ZMod N, unnormalized_kernel map sigma (center N) j :=
        Finset.single_le_sum (fun j _ => unnormalized_kernel_nonneg map sigma _ j)
          (Finset.mem_univ _)
    _ ≤ ∑ i : ZMod N, ∑ j : ZMod N, unnormalized_kernel map sigma i j :=
        Finset.single_le_sum
          (fun i _ => Finset.sum_nonneg fun j _ => unnormalized_kernel_nonneg map sigma i j)
          (Finset.mem_univ _)
    _ = kernel_sum (unnormalized_kernel map sigma) := rfl

lemma kernel_sum_ne_zero {N : ℕ} [NeZero N] (map : Grid N ℚ) (sigma : ℝ) :
    kernel_sum (unnormalized_kernel map sigma) ≠ 0 := by
  have := one_le_kernel_sum map sigma
  linarith

lemma kernel_sum_div {N : ℕ} [NeZero N] (u : Grid N ℝ) (S : ℝ) :
    kernel_sum (fun i j => u i j / S) = kernel_sum u / S := by
  simp only [kernel_sum, Finset.sum_div]

lemma run_steps_mem_nonneg {N : ℕ} [NeZero N] (kE kI vis opto : Grid N ℝ) (n : ℝ)
    (act : Grid N ℝ) (T : ℕ) :
    ∀ g ∈ run_steps kE kI vis opto n act T, ∀ i j, 0 ≤ g i j := by
  induction T generalizing act with
  | zero => simp [run_steps]
  | succ T ih =>
    intro g hg i j
    rw [run_steps, List.mem_cons] at hg
    rcases hg with h | h
    · subst h
      exact Real.rpow_nonneg (le_max_left 0 _) n
    · exact ih _ g h i j

/-- Circular shift of a grid by `(s, t)` on the two (periodic) spatial axes. -/
def circular_shift {N : ℕ} (s t : ZMod N) (g : Grid N ℝ) : Grid N ℝ :=
  fun i j => g (i - s) (j - t)

lemma time_bins_point_three_point_one : time_bins (3 / 10) (1 / 10) = 3 := by
  rw [time_bins]
  norm_num
  rfl

/-! ### Claims -/

/-- C1: for every kernel pair and all-zero visual and optogenetic frames,
the stepping loop of `run_trial`, starting from the all-zero activity state,
produces an all-zero trace at every time step (for any nonzero exponent,
since `transfer(0) = 0`); in particular the 8×8 configuration with the
constant-0 orientation field, sigma_e = 2, sigma_i = 1, n = 2, visual
contrast 0, optogenetic power 0, duration 0.3 and bin size 0.1 yields the
all-zero 8×8×3 trace. -/
theorem run_trial_zero_drive_all_zero :
    (∀ (N : ℕ) (kE kI : Grid (N + 1) ℝ) (n : ℝ), n ≠ 0 → ∀ T : ℕ,
        run_steps kE kI (zero_grid (N + 1)) (zero_grid (N + 1)) n (zero_grid (N + 1)) T =
          List.replicate T (zero_grid (N + 1))) ∧
      run_trial (N := 8) (fun _ _ => 0) 2 1 2 ⟨0, 2, 0, 2, 0⟩ ⟨0, 5, 50, 0⟩
          (3 / 10) (1 / 10) none =
        List.replicate 3 (zero_grid 8) := by
  constructor
  · intro N kE kI n hn T
    exact run_steps_zero kE kI n hn T
  · have h := run_trial_zero_drive (N := 8) (fun _ _ => 0) 2 1 2 (by norm_num)
      0 2 2 0 0 5 50 (3 / 10) (1 / 10)
    rw [h]
    rw [time_bins_point_three_point_one]

/-- C2: the trace returned by `run_trial` is a list of exactly
`time_bins = floor(duration / bin_size)` full `N × N` grids (the `(W, H)`
shape is carried by the `Grid` type); in particular duration 0.3 and bin
size 0.1 give 3 time bins. -/
theorem run_trial_trace_length :
    (∀ (N : ℕ) (map : Grid (N + 1) ℚ) (sigma_e sigma_i n : ℝ) (vs : VisualStimulus)
        (os : OptogeneticStimulus) (d b : ℚ) (opsin : Option (Grid (N + 1) ℝ)),
        (run_trial map sigma_e sigma_i n vs os d b opsin).length = time_bins d b) ∧
      time_bins (3 / 10) (1 / 10) = 3 := by
  refine ⟨fun N map sigma_e sigma_i n vs os d b opsin => ?_,
    time_bins_point_three_point_one⟩
  simp only [run_trial, run_trial_from_inputs]
  exact run_steps_length _ _ _ _ _ _ _

/-- C3: for positive spreads whose unnormalized kernels have nonzero sums,
each normalized kernel returned by `create_ssn_connectivity` sums exactly
to 1 (each kernel divided by its own total sum). -/
theorem connectivity_kernels_sum_to_one (N : ℕ) (map : Grid (N + 1) ℚ)
    (sigma_e sigma_i : ℝ) (_he : 0 < sigma_e) (_hi : 0 < sigma_i)
    (hse : kernel_sum (unnormalized_kernel map sigma_e) ≠ 0)
    (hsi : kernel_sum (unnormalized_kernel map sigma_i) ≠ 0) :
    kernel_sum (create_ssn_connectivity map sigma_e sigma_i).1 = 1 ∧
      kernel_sum (create_ssn_connectivity map sigma_e sigma_i).2 = 1 := by
  constructor
  · simp only [create_ssn_connectivity]
    rw [kernel_sum_div]
    exact div_self hse
  · simp only [create_ssn_connectivity]
    rw [kernel_sum_div]
    exact div_self hsi

/-- Witness for C3: the 8×8 constant-0 orientation field with
sigma_e = 2 and sigma_i = 1. -/
theorem connectivity_kernels_sum_to_one_witness :
    kernel_sum (create_ssn_connectivity (N := 8) (fun _ _ => 0) 2 1).1 = 1 ∧
      kernel_sum (create_ssn_connectivity (N := 8) (fun _ _ => 0) 2 1).2 = 1 :=
  connectivity_kernels_sum_to_one 7 (fun _ _ => 0) 2 1 (by norm_num) (by norm_num)
    (kernel_sum_ne_zero _ _) (kernel_sum_ne_zero _ _)

/-- C4: every cell of every time-bin slice of a trial's trace is
non-negative, for arbitrary real-valued kernels, visual and optogenetic
frames and opsin map, because each step stores `max(0, x) ^ n`
(`run_trial` is `run_trial_from_inputs` at the generated inputs). -/
theorem run_trial_activity_nonneg (N : ℕ) (kE kI vis opto : Grid (N + 1) ℝ)
    (opsin : Option (Grid (N + 1) ℝ)) (n : ℝ) (T : ℕ) (g : Grid (N + 1) ℝ)
    (hg : g ∈ run_trial_from_inputs kE kI vis opto opsin n T) (i j : ZMod (N + 1)) :
    0 ≤ g i j :=
  run_steps_mem_nonneg kE kI vis _ n (zero_grid (N + 1)) T g hg i j

/-- Witness for C4: the all-zero one-step trial on the 1×1 grid. -/
theorem run_trial_activity_nonneg_witness : 0 ≤ zero_grid 1 0 0 := by
  have hmem : zero_grid 1 ∈
      run_trial_from_inputs (zero_grid 1) (zero_grid 1) (zero_grid 1) (zero_grid 1)
        none 2 1 := by
    simp only [run_trial_from_inputs, apply_opsin_opt]
    rw [run_steps_zero _ _ 2 (by norm_num) 1]
    simp
  exact run_trial_activity_nonneg 0 _ _ _ _ none 2 1 _ hmem 0 0

/-- C5: the periodic wrap-around convolution of `convolve_with_kernel`
commutes with circular shifts on the two spatial axes. -/
theorem convolve_commutes_with_circular_shift (N : ℕ)
    (activity kernel : Grid (N + 1) ℝ) (s t : ZMod (N + 1)) :
    convolve_with_kernel (circular_shift s t activity) kernel =
      circular_shift s t (convolve_with_kernel activity kernel) := by
  funext i j
  simp only [convolve_with_kernel, circular_shift]
  refine Finset.sum_congr rfl fun p _ => Finset.sum_congr rfl fun q _ => ?_
  rw [show i + conv_offset (N + 1) - p - s = i - s + conv_offset (N + 1) - p from by ring,
    show j + conv_offset (N + 1) - q - t = j - t + conv_offset (N + 1) - q from by ring]

/-- C6: the zero-sum condition the spec's `DegenerateKernelError` guards
against is unreachable in `create_ssn_connectivity`: the centre cell's
unnormalized weight is exactly 1 for every orientation field and every
spread, so each unnormalized kernel sum is at least 1; the source performs
the normalization division unconditionally and defines no such error. -/
theorem degenerate_kernel_condition_unreachable (N : ℕ) (map : Grid (N + 1) ℚ)
    (sigma_e sigma_i : ℝ) :
    1 ≤ kernel_sum (unnormalized_kernel map sigma_e) ∧
      1 ≤ kernel_sum (unnormalized_kernel map sigma_i) :=
  ⟨one_le_kernel_sum map sigma_e, one_le_kernel_sum map sigma_i⟩

/-- C7: `run_trial` performs no time-configuration validation: for
duration 0.05 and bin size 0.1 (so `floor(duration / bin_size) = 0 < 1`)
it returns the empty trace instead of rejecting the trial. -/
theorem run_trial_zero_time_bins_returns_empty :
    run_trial (N := 8) (fun _ _ => 0) 2 1 2 ⟨0, 2, 1, 2, 0⟩ ⟨0, 5, 50, 1⟩
        (1 / 20) (1 / 10) none = [] ∧
      time_bins (1 / 20) (1 / 10) = 0 := by
  have h : time_bins (1 / 20) (1 / 10) = 0 := by
    rw [time_bins]
    norm_num
  refine ⟨?_, h⟩
  simp only [run_trial, run_trial_from_inputs, h]
  rfl

/-- C8: for positive spreads, the unnormalized kernel value at the centre
cell (which equals 1, since distance and orientation difference vanish
there) bounds the unnormalized value at every cell, for both kernels. -/
theorem unnormalized_kernel_maximal_at_center (N : ℕ) (map : Grid (N + 1) ℚ)
    (sigma_e sigma_i : ℝ) (_he : 0 < sigma_e) (_hi : 0 < sigma_i)
    (i j : ZMod (N + 1)) :
    unnormalized_kernel map sigma_e i j ≤
        unnormalized_kernel map sigma_e (center (N + 1)) (center (N + 1)) ∧
      unnormalized_kernel map sigma_i i j ≤
        unnormalized_kernel map sigma_i (center (N + 1)) (center (N + 1)) := by
  constructor <;>
    · rw [unnormalized_kernel_center]
      exact unnormalized_kernel_le_one _ _ i j

/-- Witness for C8: the 4×4 constant-0 field, sigma_e = 2, sigma_i = 1,
compared at the corner cell (0, 0). -/
theorem unnormalized_kernel_maximal_at_center_witness :
    unnormalized_kernel (N := 4) (fun _ _ => 0) 2 0 0 ≤
        unnormalized_kernel (N := 4) (fun _ _ => 0) 2 (center 4) (center 4) ∧
      unnormalized_kernel (N := 4) (fun _ _ => 0) 1 0 0 ≤
        unnormalized_kernel (N := 4) (fun _ _ => 0) 1 (center 4) (center 4) :=
  unnormalized_kernel_maximal_at_center 3 (fun _ _ => 0) 2 1 (by norm_num)
    (by norm_num) 0 0

/-- C9: a trial is a pure, deterministic function of its inputs: two
invocations of the stepping core with equal kernels, equal stimulus frames,
equal opsin map, equal exponent and equal time configuration return
identical traces. -/
theorem run_trial_deterministic (N : ℕ)
    (kE kI vis opto kE' kI' vis' opto' : Grid (N + 1) ℝ)
    (opsin opsin' : Option (Grid (N + 1) ℝ)) (n n' : ℝ) (T T' : ℕ)
    (hkE : kE = kE') (hkI : kI = kI') (hvis : vis = vis') (hopto : opto = opto')
    (hopsin : opsin = opsin') (hn : n = n') (hT : T = T') :
    run_trial_from_inputs kE kI vis opto opsin n T =
      run_trial_from_inputs kE' kI' vis' opto' opsin' n' T' := by
  subst hkE hkI hvis hopto hopsin hn hT
  rfl

/-- Witness for C9: two invocations on equal concrete inputs. -/
theorem run_trial_deterministic_witness :
    run_trial_from_inputs (zero_grid 1) (zero_grid 1) (zero_grid 1) (zero_grid 1)
        none 2 3 =
      run_trial_from_inputs (zero_grid 1) (zero_grid 1) (zero_grid 1) (zero_grid 1)
        none 2 3 :=
  run_trial_deterministic 0 _ _ _ _ _ _ _ _ none none 2 2 3 3 rfl rfl rfl rfl rfl
    rfl rfl

/-- C10: when some cell of the orientation map equals `column_tuning` and
the power is positive, `OptogeneticStimulus.generate_input` returns exactly
the 0/1 indicator mask of the matching cells — the maximum of the scaled
mask is the power itself, so the scaling cancels and the output does not
depend on the power. -/
theorem opto_generate_input_eq_indicator_mask (N : ℕ) (map : Grid (N + 1) ℚ)
    (os : OptogeneticStimulus) (hmatch : ∃ i j, map i j = os.column_tuning)
    (hp : 0 < os.power) :
    OptogeneticStimulus.generate_input os map = opto_mask map os.column_tuning := by
  obtain ⟨a, b, hab⟩ := hmatch
  have hmax :
      grid_max (fun i j => opto_mask map os.column_tuning i j * os.power) =
        os.power := by
    apply le_antisymm
    · apply Finset.sup'_le
      intro p _
      by_cases h : map p.1 p.2 = os.column_tuning <;> simp [opto_mask, h, hp.le]
    · calc
        os.power = opto_mask map os.column_tuning a b * os.power := by
          simp [opto_mask, hab]
        _ ≤ _ :=
          Finset.le_sup'
            (fun p : ZMod (N + 1) × ZMod (N + 1) =>
              opto_mask map os.column_tuning p.1 p.2 * os.power)
            (Finset.mem_univ (a, b))
  rw [OptogeneticStimulus.generate_input, hmax, if_pos hp]
  funext i j
  by_cases h : map i j = os.column_tuning <;>
    simp [opto_mask, h, div_self (ne_of_gt hp)]

/-- Witness for C10: the 1×1 constant-0 map, tuning 0, power 7. -/
theorem opto_generate_input_eq_indicator_mask_witness :
    OptogeneticStimulus.generate_input (N := 1) ⟨0, 5, 50, 7⟩ (fun _ _ => 0) =
      opto_mask (fun _ _ => 0) 0 :=
  opto_generate_input_eq_indicator_mask 0 (fun _ _ => 0) ⟨0, 5, 50, 7⟩
    ⟨0, 0, rfl⟩ (by norm_num)

end V1OptoSSN
